import Mathlib

/-!
Verification of the electrack price-window optimiser.

The development shallowly embeds the core of the repository:

* `src/price_repository.rs` — the SQL window query behind
  `fetch_optimal_price_window_of_window_for_durations`: select the price
  points in `[start, end]`, partition them by calendar date of `moment`,
  order each partition by `moment`, build for every row the frame
  `rows between current row and $3 following`, render
  `round(avg(price)::numeric, 3)::varchar` and keep the first row of
  `order by average_price limit 1`.
* `src/http.rs` — the `get_time_slots` handler: the availability gate
  (`has_prices_of_date(Local::now().date_naive())`, fetch, persist), the
  duration parsing `durations.split(',').filter_map(parse::<i32>)`, and the
  projection of each window into the timezone of `moment_start`.
* `src/domain.rs` — `PriceWindow::with_timezone`.

Instants are seconds since the Unix epoch (`Int`); a calendar date is the
floor-division of an instant by 86400.  `f64` price amounts are embedded as
rationals.  Postgres text ordering of the rendered average is modelled as
code-point lexicographic comparison.
-/

namespace Electrack

/-- UTC calendar date of an instant, as days since the epoch: the value of
`moment::date` with a UTC session timezone. -/
def utcDate (t : Int) : Int := t.fdiv 86400

/-- `PricePoint` of `src/domain.rs`: an hour-aligned UTC moment and an
amount (`f64` embedded as a rational). -/
structure PricePoint where
  moment : Int
  monetary_amount : ℚ
deriving DecidableEq

/-- `DateTime<FixedOffset>` of chrono: an absolute instant together with the
offset used to display it. -/
structure FixedDateTime where
  instant : Int
  offset : Int
deriving DecidableEq

/-- `PriceWindow` of `src/domain.rs`. -/
structure PriceWindow where
  starts_at : FixedDateTime
  ends_at : FixedDateTime
  average_price : String
deriving DecidableEq

/-- `order by moment`: comparison of price points by their moment. -/
def momentLE (p q : PricePoint) : Prop := p.moment ≤ q.moment

instance : DecidableRel momentLE := fun p q => Int.decLe p.moment q.moment

instance : IsTotal PricePoint momentLE := ⟨fun p q => Int.le_total p.moment q.moment⟩

instance : IsTrans PricePoint momentLE := ⟨fun _ _ _ h1 h2 => le_trans h1 h2⟩

/-- `where moment::timestamptz >= $1 and moment::timestamptz <= $2`. -/
def selectPoints (prices : List PricePoint) (s e : Int) : List PricePoint :=
  prices.filter (fun p => decide (s ≤ p.moment ∧ p.moment ≤ e))

/-- `order by moment` over the selected rows (a deterministic refinement of
the SQL ordering; ties between equal moments keep list order). -/
def sortByMoment (l : List PricePoint) : List PricePoint :=
  List.insertionSort momentLE l

/-- The selected rows in ascending `moment` order. -/
def sortedSelect (prices : List PricePoint) (s e : Int) : List PricePoint :=
  sortByMoment (selectPoints prices s e)

/-- The window frame of one row:
`partition by moment::date order by moment rows between current row and n following`.
For each point the frame is the point itself followed by at most `n` further
points of the same calendar date. -/
def candidateFrames : List PricePoint → Nat → List (List PricePoint)
  | [], _ => []
  | p :: rest, n =>
    (p :: ((rest.takeWhile (fun q => decide (utcDate q.moment = utcDate p.moment))).take n))
      :: candidateFrames rest n

/-- `moment` of the current row of a frame. -/
def headMoment : List PricePoint → Int
  | [] => 0
  | p :: _ => p.moment

/-- `max(moment) over price_window`. -/
def maxMoment : List PricePoint → Int
  | [] => 0
  | [p] => p.moment
  | p :: q :: rest => max p.moment (maxMoment (q :: rest))

/-- The amounts of a frame. -/
def amounts (f : List PricePoint) : List ℚ := f.map (fun p => p.monetary_amount)

/-- `avg(prices.price) over price_window`, the exact rational mean. -/
def meanAmount (f : List PricePoint) : ℚ := (amounts f).sum / (f.length : ℚ)

/-- Rounding half away from zero, the behaviour of Postgres
`round(numeric, 3)` on the scaled value. -/
def roundHalfAwayFromZero (q : ℚ) : Int :=
  if 0 ≤ q then ⌊q + 1 / 2⌋ else -⌊-q + 1 / 2⌋

/-- Executable version of `roundHalfAwayFromZero` on an explicit fraction
`n / d`, using only integer arithmetic. -/
def roundPair (n : Int) (d : Nat) : Int :=
  if 0 ≤ n then (2 * n + d) / (2 * (d : Int)) else -((2 * (-n) + d) / (2 * (d : Int)))

/-- Sum of a list of rationals as an unreduced fraction (numerator and
positive denominator), avoiding rational normalisation. -/
def sumPair : List ℚ → Int × Nat
  | [] => (0, 1)
  | q :: rest =>
    let nd := sumPair rest
    (q.num * nd.2 + nd.1 * q.den, q.den * nd.2)

/-- `round((avg(price) over w)::numeric, 3)` scaled by 1000: the rounded
average in thousandths, computed with integer arithmetic. -/
def milliKey (f : List PricePoint) : Int :=
  roundPair (1000 * (sumPair (amounts f)).1) ((sumPair (amounts f)).2 * f.length)

/-- One decimal digit character; the argument is taken modulo 10. -/
def natDigitChar (n : Nat) : Char := Char.ofNat (48 + n % 10)

/-- Plain decimal digits of a natural number (fuel-driven). -/
def natToCharsAux : Nat → Nat → List Char
  | 0, _ => []
  | Nat.succ fuel, n =>
    if n < 10 then [natDigitChar n]
    else natToCharsAux fuel (n / 10) ++ [natDigitChar (n % 10)]

/-- Plain decimal digits of a natural number. -/
def natToChars (n : Nat) : List Char := natToCharsAux (n + 1) n

/-- The three fractional digits of a value given in thousandths. -/
def pad3 (n : Nat) : List Char :=
  [natDigitChar (n / 100), natDigitChar (n / 10), natDigitChar n]

/-- `::varchar` rendering of a `numeric` of scale 3 whose value is `m`
thousandths: a decimal string with exactly three fractional digits. -/
def formatMilli (m : Int) : String :=
  String.mk ((if m < 0 then ['-'] else []) ++ natToChars (m.natAbs / 1000) ++ ['.'] ++ pad3 (m.natAbs % 1000))

/-- The `average_price` string of a frame, as produced by
`round((avg(prices.price) over price_window)::numeric, 3)::varchar`. -/
def averagePriceString (f : List PricePoint) : String := formatMilli (milliKey f)

/-- The output row built from a frame: `moment as starts_at`,
`max(moment) over w + interval '59 minutes 59 seconds' as ends_at`, and the
rendered average.  The repository decodes `timestamptz` values with a zero
(UTC) offset. -/
def mkWindow (f : List PricePoint) : PriceWindow :=
  { starts_at := { instant := headMoment f, offset := 0 }
    ends_at := { instant := maxMoment f + 3599, offset := 0 }
    average_price := averagePriceString f }

/-- Code-point lexicographic comparison of character lists: the text
ordering applied by `order by average_price` to the varchar column. -/
def charListLt : List Char → List Char → Bool
  | [], [] => false
  | [], _ :: _ => true
  | _ :: _, [] => false
  | a :: as, b :: bs =>
    if a.toNat < b.toNat then true
    else if b.toNat < a.toNat then false
    else charListLt as bs

/-- Text ordering on strings. -/
def strLt (x y : String) : Bool := charListLt x.data y.data

/-- `order by average_price limit 1` with `fetch_one`: the first row with
the textually least `average_price`; `none` when there are no rows. -/
def pickMinByKey : List PriceWindow → Option PriceWindow
  | [] => none
  | w :: rest =>
    some (rest.foldl (fun best x => if strLt x.average_price best.average_price then x else best) w)

/-- The whole SQL query of
`fetch_optimal_price_window_of_window_for_durations` for one duration,
`lookahead` being the bound value `$3`. -/
def queryOptimalWindow (prices : List PricePoint) (s e : Int) (lookahead : Nat) :
    Option PriceWindow :=
  pickMinByKey ((candidateFrames (sortedSelect prices s e) lookahead).map mkWindow)

/-- Wrap-around of a mathematical integer into `i32` (release-mode Rust
overflow semantics). -/
def wrapI32 (x : Int) : Int := (x + 2147483648) % 4294967296 - 2147483648

/-- Rust `i32::clamp`. -/
def rustClampI32 (x lo hi : Int) : Int := if x < lo then lo else if x > hi then hi else x

/-- `duration -= 1; duration = duration.clamp(0, 23);` — the number of
following rows in the frame. -/
def clampedLookahead (d : Int) : Int := rustClampI32 (wrapI32 (d - 1)) 0 23

/-- The sqlx error produced by `fetch_one` on an empty result set. -/
def sqlxRowNotFound : String := "no rows returned by a query that expected to return at least one row"

/-- The per-duration loop of
`fetch_optimal_price_window_of_window_for_durations`, instrumented with the
list of durations whose query actually ran.  The `?` operator makes the
first failing query the result of the whole call. -/
def fetchOptimalTrace (prices : List PricePoint) (s e : Int) :
    List Int → Except String (List PriceWindow) × List Int
  | [] => (Except.ok [], [])
  | d :: ds =>
    match queryOptimalWindow prices s e (clampedLookahead d).toNat with
    | none => (Except.error sqlxRowNotFound, [d])
    | some w =>
      let r := fetchOptimalTrace prices s e ds
      (r.1.map (fun ws => w :: ws), d :: r.2)

/-- `fetch_optimal_price_window_of_window_for_durations`. -/
def fetchOptimalPriceWindows (prices : List PricePoint) (s e : Int) (ds : List Int) :
    Except String (List PriceWindow) :=
  (fetchOptimalTrace prices s e ds).1

/-- `PriceWindow::with_timezone` of `src/domain.rs`: both endpoints keep
their instant and take the offset the zone assigns to that instant; the
average is cloned.  A chrono timezone is embedded as its offset map. -/
def withTimezone (w : PriceWindow) (tz : Int → Int) : PriceWindow :=
  { starts_at := { instant := w.starts_at.instant, offset := tz w.starts_at.instant }
    ends_at := { instant := w.ends_at.instant, offset := tz w.ends_at.instant }
    average_price := w.average_price }

/-- Digit value of an ASCII character. -/
def digitVal (c : Char) : Nat := c.toNat - 48

/-- Rust `str::parse::<i32>` on the characters of one token: an optional
sign, at least one ASCII digit, nothing else, and the value must fit in
`i32`. -/
def parseSignless (ds : List Char) (sign : Int) : Option Int :=
  if ds = [] then none
  else if ds.all (fun c => c.isDigit) then
    let v : Int := sign * ((ds.foldl (fun a c => a * 10 + digitVal c) 0 : Nat) : Int)
    if -2147483648 ≤ v ∧ v ≤ 2147483647 then some v else none
  else none

/-- Rust `str::parse::<i32>`. -/
def parseI32 : List Char → Option Int
  | '+' :: rest => parseSignless rest 1
  | '-' :: rest => parseSignless rest (-1)
  | s => parseSignless s 1

/-- Rust `str::split(',')`: the empty string yields one empty token. -/
def splitOnComma : List Char → List (List Char)
  | [] => [[]]
  | c :: rest =>
    if c = ',' then [] :: splitOnComma rest
    else
      match splitOnComma rest with
      | [] => [[c]]
      | t :: ts => (c :: t) :: ts

/-- `TimeslotParameters::get_durations`:
`self.durations.split(',').filter_map(|s| s.parse::<i32>().ok()).collect()`. -/
def getDurations (s : List Char) : List Int := (splitOnComma s).filterMap parseI32

/-- `Local::now().date_naive()`: the calendar date of the current instant
shifted by the server's local offset. -/
def localNowDate (now tzOffset : Int) : Int := (now + tzOffset).fdiv 86400

/-- `has_prices_of_date`: `SELECT COUNT(*) FROM prices WHERE moment::date = $1`
compared with zero. -/
def existsForDate (store : List PricePoint) (d : Int) : Bool :=
  store.any (fun p => decide (utcDate p.moment = d))

/-- The externally visible side effects of one request. -/
inductive ExternalEffect where
  | fetch
  | persist
deriving DecidableEq

/-- Outcome of one `get_time_slots` request: the store afterwards, the
external calls made, and the HTTP-level result. -/
structure RequestOutcome where
  store : List PricePoint
  effects : List ExternalEffect
  response : Except String (List PriceWindow)

/-- Display of `ElectricityProviderError::FetchPrices`. -/
def providerErrorMsg (m : String) : String := "failed to fetch prices: " ++ m

/-- Display of `PriceRepositoryError::PersistenceError`. -/
def persistErrorMsg (m : String) : String := "the prices could not be persisted: " ++ m

/-- The optimizer-and-projection tail of `get_time_slots`: query the store
between the UTC instants of `moment_start` and `moment_end`, then project
every window into the timezone of `moment_start`. -/
def serveWindows (st : List PricePoint) (startInstant startOffset endInstant : Int)
    (durationsStr : List Char) : Except String (List PriceWindow) :=
  match fetchOptimalPriceWindows st startInstant endInstant (getDurations durationsStr) with
  | Except.error m => Except.error m
  | Except.ok ws => Except.ok (ws.map (fun w => withTimezone w (fun _ => startOffset)))

/-- `get_time_slots` of `src/http.rs`.  `fetchResult` is the outcome the
external provider would return if called, `persistResult` the outcome of
`persist_prices` if called; on a successful fetch-and-persist the points are
appended to the store (the insert is atomic). -/
def getTimeSlots (store : List PricePoint) (now localOffset : Int)
    (fetchResult : Except String (List PricePoint)) (persistResult : Except String Unit)
    (startInstant startOffset endInstant : Int) (durationsStr : List Char) : RequestOutcome :=
  if existsForDate store (localNowDate now localOffset) then
    { store := store, effects := [],
      response := serveWindows store startInstant startOffset endInstant durationsStr }
  else
    match fetchResult with
    | Except.error m =>
      { store := store, effects := [ExternalEffect.fetch],
        response := Except.error (providerErrorMsg m) }
    | Except.ok fetched =>
      match persistResult with
      | Except.error pm =>
        { store := store, effects := [ExternalEffect.fetch, ExternalEffect.persist],
          response := Except.error (providerErrorMsg (persistErrorMsg pm)) }
      | Except.ok _ =>
        { store := store ++ fetched, effects := [ExternalEffect.fetch, ExternalEffect.persist],
          response := serveWindows (store ++ fetched) startInstant startOffset endInstant durationsStr }

/-- `f` occurs as a contiguous run inside `l`. -/
def contiguousIn (f l : List PricePoint) : Prop := ∃ s t, l = s ++ (f ++ t)

/-- Boolean check that every point of a frame shares the calendar date of
the frame's first point. -/
def sameDateAsHead (f : List PricePoint) : Bool :=
  f.all (fun q => decide (utcDate q.moment = utcDate (headMoment f)))

/-- Number of characters after the last `'.'` of a string. -/
def fracDigits (s : String) : Nat :=
  (s.data.reverse.takeWhile (fun c => c != '.')).length

lemma takeWhile_take_extends {α : Type} (l : List α) (p : α → Bool) :
    ∀ n : Nat, ∃ t, (l.takeWhile p).take n ++ t = l := by
  induction l with
  | nil => intro n; exact ⟨[], by simp⟩
  | cons a l ih =>
    intro n
    by_cases h : p a
    · cases n with
      | zero => exact ⟨a :: l, by simp⟩
      | succ m =>
        obtain ⟨t, ht⟩ := ih m
        exact ⟨t, by simp [List.takeWhile_cons, h, ht]⟩
    · exact ⟨a :: l, by simp [List.takeWhile_cons, h]⟩

lemma frames_contiguous (l : List PricePoint) (n : Nat) :
    ∀ f ∈ candidateFrames l n, contiguousIn f l := by
  induction l with
  | nil => intro f hf; simp [candidateFrames] at hf
  | cons p rest ih =>
    intro f hf
    rw [candidateFrames, List.mem_cons] at hf
    rcases hf with hf | hf
    · subst hf
      obtain ⟨t, ht⟩ :=
        takeWhile_take_extends rest (fun q => decide (utcDate q.moment = utcDate p.moment)) n
      exact ⟨[], t, by simp [ht]⟩
    · obtain ⟨s, t, hst⟩ := ih f hf
      exact ⟨p :: s, t, by simp [hst]⟩

lemma frames_ne_nil (l : List PricePoint) (n : Nat) :
    ∀ f ∈ candidateFrames l n, f ≠ [] := by
  induction l with
  | nil => intro f hf; simp [candidateFrames] at hf
  | cons p rest ih =>
    intro f hf
    rw [candidateFrames, List.mem_cons] at hf
    rcases hf with hf | hf
    · subst hf; simp
    · exact ih f hf

lemma frames_length (l : List PricePoint) (n : Nat) :
    (candidateFrames l n).length = l.length := by
  induction l with
  | nil => rfl
  | cons p rest ih => simp [candidateFrames, ih]

lemma frames_sameDate (l : List PricePoint) (n : Nat) :
    ∀ f ∈ candidateFrames l n, ∀ x ∈ f, utcDate x.moment = utcDate (headMoment f) := by
  induction l with
  | nil => intro f hf; simp [candidateFrames] at hf
  | cons p rest ih =>
    intro f hf x hx
    rw [candidateFrames, List.mem_cons] at hf
    rcases hf with hf | hf
    · subst hf
      rw [List.mem_cons] at hx
      rcases hx with hx | hx
      · subst hx; rfl
      · have hx' := List.take_subset _ _ hx
        have := List.mem_takeWhile_imp hx'
        exact of_decide_eq_true this
    · exact ih f hf x hx

lemma contiguousIn_sublist {f l : List PricePoint} (h : contiguousIn f l) : f.Sublist l := by
  obtain ⟨s, t, rfl⟩ := h
  exact (List.sublist_append_left f t).trans (List.sublist_append_right s (f ++ t))

lemma sortedSelect_pairwise (prices : List PricePoint) (s e : Int) :
    (sortedSelect prices s e).Pairwise momentLE :=
  List.sorted_insertionSort momentLE (selectPoints prices s e)

lemma maxMoment_getLast (f : List PricePoint) :
    f ≠ [] → f.Pairwise momentLE → ∃ z, f.getLast? = some z ∧ maxMoment f = z.moment ∧ z ∈ f := by
  induction f with
  | nil => intro h; exact absurd rfl h
  | cons p rest ih =>
    intro _ hpw
    cases rest with
    | nil => exact ⟨p, rfl, rfl, by simp⟩
    | cons q r =>
      obtain ⟨z, hz1, hz2, hz3⟩ := ih (by simp) (List.pairwise_cons.mp hpw).2
      refine ⟨z, ?_, ?_, List.mem_cons_of_mem p hz3⟩
      · rw [List.getLast?_cons_cons]; exact hz1
      · have hle : momentLE p z := (List.pairwise_cons.mp hpw).1 z hz3
        show max p.moment (maxMoment (q :: r)) = z.moment
        rw [hz2]; exact max_eq_right hle

lemma foldl_pick_mem (step : PriceWindow → PriceWindow → PriceWindow)
    (hstep : ∀ b x, step b x = b ∨ step b x = x) :
    ∀ (l : List PriceWindow) (w : PriceWindow), l.foldl step w = w ∨ l.foldl step w ∈ l := by
  intro l
  induction l with
  | nil => intro w; left; rfl
  | cons x xs ih =>
    intro w
    rw [List.foldl_cons]
    rcases ih (step w x) with h | h
    · rcases hstep w x with h2 | h2
      · left; rw [h, h2]
      · right; rw [h, h2]; exact List.mem_cons_self x xs
    · right; exact List.mem_cons_of_mem x h

lemma pickMinByKey_mem {l : List PriceWindow} {w : PriceWindow}
    (h : pickMinByKey l = some w) : w ∈ l := by
  cases l with
  | nil => simp [pickMinByKey] at h
  | cons x xs =>
    rw [pickMinByKey, Option.some_inj] at h
    have := foldl_pick_mem
      (fun best y => if strLt y.average_price best.average_price then y else best)
      (fun b y => by by_cases hc : strLt y.average_price b.average_price <;> simp [hc]) xs x
    rcases this with h2 | h2
    · have hxw : x = w := h2.symm.trans h
      subst hxw
      exact List.mem_cons_self x xs
    · rw [h] at h2
      exact List.mem_cons_of_mem x h2

lemma sumPair_den_ne (l : List ℚ) : (sumPair l).2 ≠ 0 := by
  induction l with
  | nil => simp [sumPair]
  | cons q rest ih =>
    have hq : q.den ≠ 0 := q.den_nz
    simp only [sumPair]
    exact Nat.mul_ne_zero hq ih

lemma sumPair_spec (l : List ℚ) :
    ((sumPair l).1 : ℚ) / ((sumPair l).2 : ℚ) = l.sum := by
  induction l with
  | nil => simp [sumPair]
  | cons q rest ih =>
    have hd : ((sumPair rest).2 : ℚ) ≠ 0 := by
      exact_mod_cast sumPair_den_ne rest
    have hden : ((q.den : ℚ)) ≠ 0 := by
      exact_mod_cast q.den_nz
    rw [List.sum_cons, ← ih]
    conv_rhs => rw [← Rat.num_div_den q]
    simp only [sumPair]
    push_cast
    field_simp

lemma roundPair_spec (n : Int) (d : Nat) (hd : d ≠ 0) :
    roundPair n d = roundHalfAwayFromZero ((n : ℚ) / (d : ℚ)) := by
  have hdq : (0 : ℚ) < (d : ℚ) := by exact_mod_cast Nat.pos_of_ne_zero hd
  have hsign : (0 ≤ ((n : ℚ) / (d : ℚ))) ↔ 0 ≤ n := by
    rw [le_div_iff₀ hdq, zero_mul]
    exact Int.cast_nonneg
  rw [roundPair, roundHalfAwayFromZero]
  by_cases h : 0 ≤ n
  · rw [if_pos h, if_pos (hsign.mpr h)]
    have heq : (n : ℚ) / (d : ℚ) + 1 / 2 = ((2 * n + d : Int) : ℚ) / (((2 * d : Nat)) : ℚ) := by
      have hd2 : ((d : ℚ)) ≠ 0 := ne_of_gt hdq
      push_cast
      field_simp
      ring
    rw [heq, Rat.floor_intCast_div_natCast]
    push_cast
    rfl
  · rw [if_neg h, if_neg (fun hc => h (hsign.mp hc))]
    have heq : -((n : ℚ) / (d : ℚ)) + 1 / 2 = ((2 * (-n) + d : Int) : ℚ) / (((2 * d : Nat)) : ℚ) := by
      have hd2 : ((d : ℚ)) ≠ 0 := ne_of_gt hdq
      push_cast
      field_simp
      ring
    rw [heq, Rat.floor_intCast_div_natCast]
    push_cast
    rfl

lemma milliKey_spec (f : List PricePoint) (hf : f ≠ []) :
    milliKey f = roundHalfAwayFromZero (meanAmount f * 1000) := by
  have hlen : f.length ≠ 0 := fun hc => hf (List.length_eq_zero.mp hc)
  have hd : (sumPair (amounts f)).2 * f.length ≠ 0 :=
    Nat.mul_ne_zero (sumPair_den_ne (amounts f)) hlen
  rw [milliKey, roundPair_spec _ _ hd]
  congr 1
  rw [meanAmount, ← sumPair_spec (amounts f)]
  have hdq : ((sumPair (amounts f)).2 : ℚ) ≠ 0 := by
    exact_mod_cast sumPair_den_ne (amounts f)
  have hlq : ((f.length : ℚ)) ≠ 0 := by exact_mod_cast hlen
  push_cast
  field_simp
  ring

lemma natDigitChar_ne_dot (n : Nat) : (natDigitChar n != '.') = true := by
  have h : n % 10 = 0 ∨ n % 10 = 1 ∨ n % 10 = 2 ∨ n % 10 = 3 ∨ n % 10 = 4 ∨ n % 10 = 5 ∨
      n % 10 = 6 ∨ n % 10 = 7 ∨ n % 10 = 8 ∨ n % 10 = 9 := by omega
  rcases h with h | h | h | h | h | h | h | h | h | h <;> rw [natDigitChar, h] <;> decide

lemma fracDigits_formatMilli (m : Int) : fracDigits (formatMilli m) = 3 := by
  have hdata : (formatMilli m).data =
      (((if m < 0 then ['-'] else []) ++ natToChars (m.natAbs / 1000)) ++ ['.'])
        ++ pad3 (m.natAbs % 1000) := rfl
  rw [fracDigits, hdata, pad3]
  simp [List.reverse_append, List.takeWhile_cons, natDigitChar_ne_dot]

lemma filterMap_as_flatten (l : List (List Char)) :
    l.filterMap parseI32 = (l.map (fun t => (parseI32 t).toList)).flatten := by
  induction l with
  | nil => rfl
  | cons a l ih =>
    rw [List.map_cons, List.flatten_cons, List.filterMap_cons]
    cases parseI32 a <;> simp [Option.toList, ih]

/-- C1: the claim states that the optimizer returns the candidate window of
globally minimal mean amount.  The code instead ranks by
`order by average_price` on the varchar column, i.e. textually.  At the
failing input (amount 10.0 at epoch hour 0, amount 9.0 at hour 1, range
covering both, duration 1) the string key of the mean-10 candidate,
`10.000`, sorts before `9.000`, so the more expensive window is returned,
although the mean of the hour-1 candidate is strictly smaller.  This
contradicts the handler's own documentation (the cheapest timeslots), so
the code is at fault. -/
theorem claim1_code_bug_eval :
    fetchOptimalPriceWindows [⟨0, 10⟩, ⟨3600, 9⟩] 0 7200 [1] =
      Except.ok [⟨⟨0, 0⟩, ⟨3599, 0⟩, "10.000"⟩] ∧
    meanAmount [⟨3600, 9⟩] < meanAmount [⟨0, 10⟩] := by
  constructor
  · rfl
  · norm_num [meanAmount, amounts]

/-- C2, counterexample: with an empty point set and durations `[1, 2]`, the
call evaluates only the first duration (the trace is `[1]`, not `[1, 2]`)
and returns its error for the whole call, refuting the claim that the other
durations of the same call are still evaluated independently. -/
theorem claim2_counterexample :
    (fetchOptimalTrace ([] : List PricePoint) 0 100 [1, 2]).2 = [1] ∧
    (fetchOptimalTrace ([] : List PricePoint) 0 100 [1, 2]).2 ≠ [1, 2] ∧
    (fetchOptimalTrace ([] : List PricePoint) 0 100 [1, 2]).1 = Except.error sqlxRowNotFound := by
  refine ⟨rfl, by decide, rfl⟩

/-- C2, amended: when the selected point set of the range is empty, the
per-duration loop short-circuits at the first duration: the whole call
returns that duration's error and no later duration is evaluated. -/
theorem claim2_amended (prices : List PricePoint) (s e : Int) (d : Int) (ds : List Int)
    (h : selectPoints prices s e = []) :
    fetchOptimalTrace prices s e (d :: ds) = (Except.error sqlxRowNotFound, [d]) := by
  have hq : queryOptimalWindow prices s e (clampedLookahead d).toNat = none := by
    rw [queryOptimalWindow, sortedSelect, h]
    rfl
  simp only [fetchOptimalTrace, hq]

/-- C2, witness: the amended statement applied to an empty store and three
requested durations. -/
theorem claim2_witness :
    fetchOptimalTrace ([] : List PricePoint) 5 9 [3, 4, 5] =
      (Except.error sqlxRowNotFound, [3]) :=
  claim2_amended [] 5 9 3 [4, 5] rfl

/-- C3, counterexample: at the UTC instant 86399 (23:59:59 of epoch day 0)
on a server whose local offset is +1 hour, `Local::now().date_naive()` is
day 1 while the UTC date is day 0; a store holding a point of (UTC) today
fails the gate's existence check, so the availability check is not
performed in UTC. -/
theorem claim3_counterexample :
    localNowDate 86399 3600 = 1 ∧ utcDate 86399 = 0 ∧
    existsForDate [⟨0, 1⟩] (localNowDate 86399 3600) = false ∧
    existsForDate [⟨0, 1⟩] (utcDate 86399) = true := by
  refine ⟨by decide, by decide, by decide, by decide⟩

/-- C3, amended: range selection compares bare UTC instants and the
optimizer's partitioning keeps every frame within one UTC calendar date,
but the availability gate determines the current date in the server's local
timezone (`Local::now().date_naive()`), i.e. from the instant shifted by
the local offset, not from the UTC instant. -/
theorem claim3_amended (now off s e : Int) (prices : List PricePoint) (p : PricePoint)
    (n : Nat) :
    localNowDate now off = utcDate (now + off) ∧
    (p ∈ selectPoints prices s e ↔ p ∈ prices ∧ s ≤ p.moment ∧ p.moment ≤ e) ∧
    (candidateFrames (sortedSelect prices s e) n).all sameDateAsHead = true := by
  refine ⟨rfl, ?_, ?_⟩
  · simp [selectPoints, List.mem_filter]
  · rw [List.all_eq_true]
    intro f hf
    rw [sameDateAsHead, List.all_eq_true]
    intro x hx
    exact decide_eq_true (frames_sameDate _ n f hf x hx)

/-- C4: when the store already holds a price point of today's date as the
gate computes it, the request performs no external effect at all (in
particular no provider fetch) and leaves the store unchanged; hence a
second request against the resulting store performs no external effect
either — zero fetches across two consecutive gate runs. -/
theorem claim4_gate_idempotent (store : List PricePoint) (n1 o1 n2 o2 : Int)
    (fr1 fr2 : Except String (List PricePoint)) (pr1 pr2 : Except String Unit)
    (si so ei : Int) (dstr : List Char)
    (h1 : existsForDate store (localNowDate n1 o1) = true)
    (h2 : existsForDate store (localNowDate n2 o2) = true) :
    (getTimeSlots store n1 o1 fr1 pr1 si so ei dstr).effects = [] ∧
    (getTimeSlots store n1 o1 fr1 pr1 si so ei dstr).store = store ∧
    (getTimeSlots (getTimeSlots store n1 o1 fr1 pr1 si so ei dstr).store
        n2 o2 fr2 pr2 si so ei dstr).effects = [] := by
  have e1 : getTimeSlots store n1 o1 fr1 pr1 si so ei dstr =
      { store := store, effects := [],
        response := serveWindows store si so ei dstr } := by
    rw [getTimeSlots.eq_def, if_pos h1]
  refine ⟨by rw [e1], by rw [e1], ?_⟩
  rw [e1]
  show (getTimeSlots store n2 o2 fr2 pr2 si so ei dstr).effects = []
  rw [getTimeSlots.eq_def, if_pos h2]

/-- C4, witness: a store holding one point of epoch day 0, queried twice
during that day. -/
theorem claim4_witness :
    (getTimeSlots [⟨0, 1⟩] 3600 0 (Except.ok []) (Except.ok ()) 0 0 86399 ['1']).effects = [] ∧
    (getTimeSlots [⟨0, 1⟩] 3600 0 (Except.ok []) (Except.ok ()) 0 0 86399 ['1']).store = [⟨0, 1⟩] ∧
    (getTimeSlots (getTimeSlots [⟨0, 1⟩] 3600 0 (Except.ok []) (Except.ok ()) 0 0 86399 ['1']).store
        7200 0 (Except.ok []) (Except.ok ()) 0 0 86399 ['1']).effects = [] :=
  claim4_gate_idempotent [⟨0, 1⟩] 3600 0 7200 0 (Except.ok []) (Except.ok []) (Except.ok ())
    (Except.ok ()) 0 0 86399 ['1'] (by decide) (by decide)

/-- C5: when the gate misses and the external fetch fails, the persist
operation is never invoked, the store is unchanged, and the provider's
fetch error is the request's error. -/
theorem claim5_fetch_failure (store : List PricePoint) (now off : Int) (m : String)
    (pr : Except String Unit) (si so ei : Int) (dstr : List Char)
    (h : existsForDate store (localNowDate now off) = false) :
    ExternalEffect.persist ∉ (getTimeSlots store now off (Except.error m) pr si so ei dstr).effects ∧
    (getTimeSlots store now off (Except.error m) pr si so ei dstr).store = store ∧
    (getTimeSlots store now off (Except.error m) pr si so ei dstr).response =
      Except.error (providerErrorMsg m) := by
  have e1 : getTimeSlots store now off (Except.error m) pr si so ei dstr =
      { store := store, effects := [ExternalEffect.fetch],
        response := Except.error (providerErrorMsg m) } := by
    rw [getTimeSlots.eq_def, if_neg (by simp [h])]
  refine ⟨by rw [e1]; simp, by rw [e1], by rw [e1]⟩

/-- C5, witness: an empty store with a failing provider. -/
theorem claim5_witness :
    ExternalEffect.persist ∉
      (getTimeSlots [] 0 0 (Except.error ("no route to host")) (Except.ok ()) 0 0 86399
        ['1']).effects ∧
    (getTimeSlots [] 0 0 (Except.error ("no route to host")) (Except.ok ()) 0 0 86399
      ['1']).store = [] ∧
    (getTimeSlots [] 0 0 (Except.error ("no route to host")) (Except.ok ()) 0 0 86399
      ['1']).response = Except.error (providerErrorMsg ("no route to host")) :=
  claim5_fetch_failure [] 0 0 ("no route to host") (Except.ok ()) 0 0 86399 ['1'] rfl

/-- C6: every candidate frame ranked by the optimizer is non-empty, all its
points share the calendar date of its first point, it is a contiguous run
of the date-ordered selected points, and there is exactly one frame per
selected point — so a frame with fewer than the requested number of
following same-date points (a truncated window) still appears among the
ranked candidates. -/
theorem claim6_frames (prices : List PricePoint) (s e : Int) (n : Nat) (f : List PricePoint)
    (hf : f ∈ candidateFrames (sortedSelect prices s e) n) :
    f ≠ [] ∧ (∀ x ∈ f, utcDate x.moment = utcDate (headMoment f)) ∧
    contiguousIn f (sortedSelect prices s e) ∧
    (candidateFrames (sortedSelect prices s e) n).length = (sortedSelect prices s e).length :=
  ⟨frames_ne_nil _ n f hf, frames_sameDate _ n f hf, frames_contiguous _ n f hf,
    frames_length _ n⟩

/-- C6, witness: the two-point day with lookahead 1; the full two-point
frame is a candidate. -/
theorem claim6_witness :
    ([⟨0, 10⟩, ⟨3600, 9⟩] : List PricePoint) ≠ [] ∧
    (∀ x ∈ ([⟨0, 10⟩, ⟨3600, 9⟩] : List PricePoint),
      utcDate x.moment = utcDate (headMoment [⟨0, 10⟩, ⟨3600, 9⟩])) ∧
    contiguousIn [⟨0, 10⟩, ⟨3600, 9⟩] (sortedSelect [⟨0, 10⟩, ⟨3600, 9⟩] 0 7200) ∧
    (candidateFrames (sortedSelect [⟨0, 10⟩, ⟨3600, 9⟩] 0 7200) 1).length =
      (sortedSelect [⟨0, 10⟩, ⟨3600, 9⟩] 0 7200).length :=
  claim6_frames [⟨0, 10⟩, ⟨3600, 9⟩] 0 7200 1 [⟨0, 10⟩, ⟨3600, 9⟩] (by decide)

/-- C7, counterexample: at `d = i32::MIN` the subtraction `d - 1` overflows
`i32` and wraps to `i32::MAX`, so the clamped lookahead is 23, while the
claim's formula `clamp(d - 1, 0, 23)` over the integers gives 0. -/
theorem claim7_counterexample :
    clampedLookahead (-2147483648) = 23 ∧
    min 23 (max 0 ((-2147483648 : Int) - 1)) = 0 := by
  refine ⟨by decide, by decide⟩

/-- C7, amended: for every `i32` duration except `i32::MIN` the lookahead
beyond the starting point equals `clamp(d - 1, 0, 23)`: durations of 1 or
less use 0 following points and durations above 24 are clamped to 23
following points rather than rejected.  At `i32::MIN` the subtraction
overflows (it wraps to `i32::MAX` under release-mode semantics, giving a
lookahead of 23). -/
theorem claim7_amended (d : Int) (h1 : -2147483648 < d) (h2 : d < 2147483648) :
    clampedLookahead d = min 23 (max 0 (d - 1)) := by
  have hw : wrapI32 (d - 1) = d - 1 := by
    rw [wrapI32]
    have hmod : (d - 1 + 2147483648) % 4294967296 = d - 1 + 2147483648 :=
      Int.emod_eq_of_lt (by omega) (by omega)
    omega
  rw [clampedLookahead, hw, rustClampI32]
  by_cases hlo : d - 1 < 0
  · rw [if_pos hlo, max_eq_left (by omega : d - 1 ≤ 0),
      min_eq_right (by norm_num : (0 : Int) ≤ 23)]
  · rw [if_neg hlo]
    by_cases hhi : d - 1 > 23
    · rw [if_pos hhi, max_eq_right (by omega : (0 : Int) ≤ d - 1),
        min_eq_left (by omega : (23 : Int) ≤ d - 1)]
    · rw [if_neg hhi, max_eq_right (by omega : (0 : Int) ≤ d - 1),
        min_eq_right (by omega : d - 1 ≤ 23)]

/-- C7, witness: a duration of 25 is clamped to a lookahead of 23. -/
theorem claim7_witness :
    clampedLookahead 25 = min 23 (max 0 (25 - 1)) ∧ clampedLookahead 25 = 23 :=
  ⟨claim7_amended 25 (by norm_num) (by norm_num), by decide⟩

/-- C8: every window the per-duration query returns is built from one
candidate frame: `starts_at` is the frame's first point's moment,
`ends_at` is the frame's last point's moment plus 59 minutes 59 seconds,
and `average_price` is the frame's mean amount rounded half away from zero
to thousandths and rendered as a decimal string with exactly three
fractional digits. -/
theorem claim8_window_shape (prices : List PricePoint) (s e : Int) (n : Nat) (w : PriceWindow)
    (h : queryOptimalWindow prices s e n = some w) :
    ∃ f, f ∈ candidateFrames (sortedSelect prices s e) n ∧
      (∃ p, f.head? = some p ∧ w.starts_at = ⟨p.moment, 0⟩) ∧
      (∃ z, f.getLast? = some z ∧ w.ends_at = ⟨z.moment + 3599, 0⟩) ∧
      w.average_price = formatMilli (roundHalfAwayFromZero (meanAmount f * 1000)) ∧
      fracDigits w.average_price = 3 := by
  rw [queryOptimalWindow] at h
  have hmem := pickMinByKey_mem h
  obtain ⟨f, hf, hw⟩ := List.mem_map.mp hmem
  have hne : f ≠ [] := frames_ne_nil _ n f hf
  have hpw : f.Pairwise momentLE :=
    List.Pairwise.sublist (contiguousIn_sublist (frames_contiguous _ n f hf))
      (sortedSelect_pairwise prices s e)
  obtain ⟨z, hz1, hz2, _⟩ := maxMoment_getLast f hne hpw
  refine ⟨f, hf, ?_, ?_, ?_, ?_⟩
  · cases f with
    | nil => exact absurd rfl hne
    | cons p rest => exact ⟨p, rfl, by rw [← hw]; rfl⟩
  · refine ⟨z, hz1, ?_⟩
    rw [← hw]
    show FixedDateTime.mk (maxMoment f + 3599) 0 = FixedDateTime.mk (z.moment + 3599) 0
    rw [hz2]
  · rw [← hw]
    show averagePriceString f = formatMilli (roundHalfAwayFromZero (meanAmount f * 1000))
    rw [averagePriceString, milliKey_spec f hne]
  · rw [← hw]
    exact fracDigits_formatMilli (milliKey f)

/-- C8, witness: with the two-point day and lookahead 1 the query returns
the one-point frame at hour 1. -/
theorem claim8_witness :
    ∃ f, f ∈ candidateFrames (sortedSelect [⟨0, 10⟩, ⟨3600, 9⟩] 0 7200) 1 ∧
      (∃ p, f.head? = some p ∧
        (⟨⟨3600, 0⟩, ⟨7199, 0⟩, "9.000"⟩ : PriceWindow).starts_at = ⟨p.moment, 0⟩) ∧
      (∃ z, f.getLast? = some z ∧
        (⟨⟨3600, 0⟩, ⟨7199, 0⟩, "9.000"⟩ : PriceWindow).ends_at = ⟨z.moment + 3599, 0⟩) ∧
      (⟨⟨3600, 0⟩, ⟨7199, 0⟩, "9.000"⟩ : PriceWindow).average_price =
        formatMilli (roundHalfAwayFromZero (meanAmount f * 1000)) ∧
      fracDigits (⟨⟨3600, 0⟩, ⟨7199, 0⟩, "9.000"⟩ : PriceWindow).average_price = 3 :=
  claim8_window_shape [⟨0, 10⟩, ⟨3600, 9⟩] 0 7200 1 ⟨⟨3600, 0⟩, ⟨7199, 0⟩, "9.000"⟩ (by decide)

/-- C9: projecting a window into any timezone passes `average_price`
through unchanged and keeps the instants of both endpoints; projecting the
result back to UTC (offset 0) recovers the original instants exactly. -/
theorem claim9_projection (w : PriceWindow) (tz : Int → Int) :
    (withTimezone w tz).average_price = w.average_price ∧
    (withTimezone w tz).starts_at.instant = w.starts_at.instant ∧
    (withTimezone w tz).ends_at.instant = w.ends_at.instant ∧
    (withTimezone (withTimezone w tz) (fun _ => 0)).starts_at.instant = w.starts_at.instant ∧
    (withTimezone (withTimezone w tz) (fun _ => 0)).ends_at.instant = w.ends_at.instant ∧
    (withTimezone (withTimezone w tz) (fun _ => 0)).starts_at.offset = 0 ∧
    (withTimezone (withTimezone w tz) (fun _ => 0)).ends_at.offset = 0 :=
  ⟨rfl, rfl, rfl, rfl, rfl, rfl, rfl⟩

/-- C10: the parsed duration list is exactly the concatenation, in token
order, of the `i32` values of those comma-separated tokens that parse;
failing tokens contribute nothing (they are dropped without an error), the
empty string yields the empty list, and a string of malformed tokens also
yields the empty list. -/
theorem claim10_durations (s : List Char) :
    getDurations s = ((splitOnComma s).map (fun t => (parseI32 t).toList)).flatten ∧
    getDurations [] = [] ∧
    getDurations ['2', ',', 'x', ',', ',', '+', '7'] = [2, 7] ∧
    parseI32 [] = none :=
  ⟨filterMap_as_flatten (splitOnComma s), by decide, by decide, rfl⟩

end Electrack
